import Mathlib

/-!
Verification of the requestmod package: an http.RoundTripper wrapper that
clones each request, applies a user visitor to the clone, tracks the
original-to-clone mapping, and cleans up the mapping when the response body
is drained or closed.

Pointers and aliasing matter for the non-mutation claims, so requests and
header value slices live in an explicit heap: a request pointer is an index
into `Heap.reqs`, a slice pointer an index into `Heap.slices`.  A Go header
map is an association list from key to slice pointer; a nil map is `none`.
-/

namespace Requestmod

/-- An http.Header: `none` models a nil Go map; otherwise an association
list from header key to the pointer of its value slice. -/
abbrev HeaderMap := Option (List (String × Nat))

/-- The fields of http.Request the package touches.  `Header` is the header
map; `method`, `url` and `body` stand for the structural fields that
`cloneRequest` copies by value (sharing the pointed-to objects). -/
structure Request where
  header : HeaderMap
  method : String
  url : Nat
  body : Nat
deriving DecidableEq, Repr, Inhabited

/-- The heap: request objects and header value slices, addressed by index.
Allocation appends. -/
structure Heap where
  reqs : List Request
  slices : List (List String)
deriving DecidableEq, Repr, Inhabited

/-- Read the request object at a pointer. -/
def Heap.reqAt (h : Heap) (p : Nat) : Request :=
  h.reqs.getD p default

/-- Read the slice contents at a slice pointer. -/
def Heap.sliceAt (h : Heap) (j : Nat) : List String :=
  h.slices.getD j []

/-- The slice pointers held by a request object's header map. -/
def footprint (h : Heap) (p : Nat) : List Nat :=
  ((h.reqAt p).header.getD []).map Prod.snd

/-- The header entries of a request with value slices dereferenced. -/
def headerEntriesView (h : Heap) (p : Nat) : List (String × List String) :=
  ((h.reqAt p).header.getD []).map (fun e => (e.1, h.sliceAt e.2))

/-- The header collection of a request as observed values: distinguishes a
nil map from an empty one and dereferences every value slice. -/
def headerView (h : Heap) (p : Nat) : Option (List (String × List String)) :=
  (h.reqAt p).header.map (List.map (fun e => (e.1, h.sliceAt e.2)))

/-- Well-formed pointer: the request exists and every slice pointer of its
header map is allocated. -/
def reqWF (h : Heap) (p : Nat) : Prop :=
  p < h.reqs.length ∧
    ∀ sp ∈ footprint h p, sp < h.slices.length

instance (h : Heap) (p : Nat) : Decidable (reqWF h p) := by
  unfold reqWF; infer_instance

/-- The loop body of cloneRequest: `mod.Header[k] = append([]string(nil), s...)`
for each entry, allocating a fresh slice holding a copy of the contents. -/
def cloneHeaderEntries (slices : List (List String))
    (entries : List (String × Nat)) :
    List (String × Nat) × List (List String) :=
  match entries with
  | [] => ([], slices)
  | e :: rest =>
      let fresh := slices.length
      let slices1 := slices ++ [slices.getD e.2 []]
      let r := cloneHeaderEntries slices1 rest
      ((e.1, fresh) :: r.1, r.2)

/-- cloneRequest: `*mod = *orig`, then a fresh non-nil header map whose
entries carry freshly allocated copies of the original value slices.  A nil
original map iterates zero times, leaving the fresh map empty.  Returns the
grown heap and the pointer of the clone. -/
def cloneRequest (h : Heap) (p : Nat) : Heap × Nat :=
  let orig := h.reqAt p
  let r := cloneHeaderEntries h.slices (orig.header.getD [])
  let mod : Request := { orig with header := some r.1 }
  ({ reqs := h.reqs ++ [mod], slices := r.2 }, h.reqs.length)

/-- Overwrite the contents of one slice (models a visitor writing through a
value slice it can reach). -/
def writeSlice (h : Heap) (j : Nat) (v : List String) : Heap :=
  { h with slices := h.slices.set j v }

/-! ## The tracking table `modReq` -/

/-- The tracking table: association list from original request pointer to
working request pointer (a Go map keyed by request identity). -/
abbrev Table := List (Nat × Nat)

/-- Go map read `t.modReq[req]`. -/
def lookupTable (t : Table) (k : Nat) : Option Nat :=
  (t.find? (fun e => e.1 = k)).map Prod.snd

/-- Go map delete. -/
def eraseTable (t : Table) (k : Nat) : Table :=
  t.filter (fun e => e.1 ≠ k)

/-- setModReq: delete the entry when `mod` is nil, else set it. -/
def setModReq (t : Table) (orig : Nat) (mod : Option Nat) : Table :=
  match mod with
  | none => eraseTable t orig
  | some m => eraseTable t orig ++ [(orig, m)]

/-! ## The onEOFReader stream wrapper -/

/-- Read-level stream errors: end of stream or anything else. -/
inductive IOErr where
  | eof
  | other (msg : String)
deriving DecidableEq, Repr

/-- The wrapped ReadCloser: the queue of outcomes its Read will deliver
(byte count and optional error), and what its Close returns.  An exhausted
queue keeps delivering `(0, EOF)`. -/
structure Stream where
  reads : List (Nat × Option IOErr)
  closeResult : Option String
deriving DecidableEq, Repr

/-- One Read of the wrapped stream. -/
def streamRead (s : Stream) : (Nat × Option IOErr) × Stream :=
  match s.reads with
  | [] => ((0, some .eof), s)
  | r :: rest => (r, { s with reads := rest })

/-- The onEOFReader: the wrapped stream and whether the callback `fn` is
still present (`fn ≠ nil`).  Callback invocations are counted alongside the
state by the step functions. -/
structure onEOFReader where
  rc : Stream
  fnPresent : Bool
deriving DecidableEq, Repr

/-- runFunc: call `fn` and clear it if present, else do nothing.  The
`count` accumulator records how often the callback has actually run. -/
def runFunc (r : onEOFReader) (count : Nat) : onEOFReader × Nat :=
  if r.fnPresent then ({ r with fnPresent := false }, count + 1) else (r, count)

/-- Read: delegate to the wrapped stream; on io.EOF trigger runFunc; return
the delegate's count and error unchanged. -/
def onEOFReader.Read (r : onEOFReader) (count : Nat) :
    (Nat × Option IOErr) × onEOFReader × Nat :=
  let res := streamRead r.rc
  let r1 : onEOFReader := { r with rc := res.2 }
  if res.1.2 = some .eof then
    let t := runFunc r1 count
    (res.1, t.1, t.2)
  else
    (res.1, r1, count)

/-- Close: delegate to the wrapped stream's Close, trigger runFunc, return
the delegate's result. -/
def onEOFReader.Close (r : onEOFReader) (count : Nat) :
    Option String × onEOFReader × Nat :=
  let err := r.rc.closeResult
  let t := runFunc r count
  (err, t.1, t.2)

/-- A consumer action on the response body. -/
inductive BodyOp where
  | read
  | close
deriving DecidableEq, Repr

/-- Run a sequence of consumer actions against an onEOFReader. -/
def runOps (r : onEOFReader) (count : Nat) : List BodyOp → onEOFReader × Nat
  | [] => (r, count)
  | .read :: rest =>
      let t := r.Read count
      runOps t.2.1 t.2.2 rest
  | .close :: rest =>
      let t := r.Close count
      runOps t.2.1 t.2.2 rest

/-! ## The Transport -/

/-- Identity of an http.RoundTripper used as Base; `defaultTransport` is
http.DefaultTransport. -/
inductive BaseRef where
  | defaultTransport
  | custom (id : Nat)
deriving DecidableEq, Repr

/-- The Transport: wrapped Base, optional RequestVisitor (a visitor
identity, `none` when nil), and the tracking table. -/
structure Transport where
  base : BaseRef
  requestVisitor : Option Nat
  modReq : Table
deriving DecidableEq, Repr

/-- NewTransport: substitute http.DefaultTransport for a nil Base and start
with an empty tracking table. -/
def newTransport (base : Option BaseRef) (requestVisitor : Option Nat) :
    Transport :=
  { base := match base with
      | none => BaseRef.defaultTransport
      | some b => b
    requestVisitor := requestVisitor
    modReq := [] }

/-- Semantics of visitors: a visitor identity maps to a function that may
mutate the heap through the request pointer it is given and may fail.
Mutations performed before a failure persist, as in Go. -/
abbrev VisitorSem := Nat → Heap → Nat → Heap × Option String

/-- A request as the base transport observes it: field values with the
header map dereferenced. -/
structure ReqView where
  header : Option (List (String × List String))
  method : String
  url : Nat
  body : Nat
deriving DecidableEq, Repr

/-- Dereference a request pointer into the view the base transport gets. -/
def reqView (h : Heap) (p : Nat) : ReqView :=
  { header := headerView h p
    method := (h.reqAt p).method
    url := (h.reqAt p).url
    body := (h.reqAt p).body }

/-- A response from the base transport: its body stream. -/
structure Response where
  body : Stream
deriving DecidableEq, Repr

/-- Semantics of base transports: RoundTrip of the working request's view,
yielding a response or an error.  RoundTrippers must not mutate the request,
so the heap is read-only here. -/
abbrev BaseSem := BaseRef → ReqView → Except String Response

/-- A returned response: its body is the onEOFReader wrapping the base
response's body, callback armed. -/
structure WrappedResponse where
  body : onEOFReader
deriving DecidableEq, Repr

/-- The visitor stage of RoundTrip: skip when RequestVisitor is nil, else
run the visitor on the clone. -/
def visitStage (t : Transport) (vsem : VisitorSem) (h : Heap) (mod : Nat) :
    Heap × Option String :=
  match t.requestVisitor with
  | none => (h, none)
  | some vid => vsem vid h mod

/-- The outcome of RoundTrip: the result, the tracking table and heap after
the call, and the requests forwarded to the base transport. -/
structure RTOut where
  result : Except String WrappedResponse
  modReq : Table
  heap : Heap
  baseCalls : List ReqView
deriving Repr

/-- RoundTrip: clone the request, run the visitor on the clone (failure
returns that error with nothing registered and the base never invoked),
register original to clone, delegate to Base (failure unregisters and
returns that error), and on success wrap the response body so that draining
or closing it unregisters the mapping. -/
def roundTrip (t : Transport) (vsem : VisitorSem) (bsem : BaseSem)
    (h : Heap) (req : Nat) : RTOut :=
  let c := cloneRequest h req
  let v := visitStage t vsem c.1 c.2
  match v.2 with
  | some e =>
      { result := .error e, modReq := t.modReq, heap := v.1, baseCalls := [] }
  | none =>
      let tbl1 := setModReq t.modReq req (some c.2)
      let view := reqView v.1 c.2
      match bsem t.base view with
      | .error e =>
          { result := .error e, modReq := setModReq tbl1 req none
            heap := v.1, baseCalls := [view] }
      | .ok res =>
          { result := .ok { body := { rc := res.body, fnPresent := true } }
            modReq := tbl1, heap := v.1, baseCalls := [view] }

/-- What CancelRequest did toward the base transport: not invoked at all
(Base has no canceler), or invoked with a request pointer or with nil. -/
inductive CancelCall where
  | notInvoked
  | invoked (arg : Option Nat)
deriving DecidableEq, Repr

/-- CancelRequest: when the Base satisfies the canceler interface, look up
the working request (nil when absent), delete the mapping, and invoke the
Base's CancelRequest with the looked-up value; otherwise do nothing.
`cancels` models the `t.Base.(canceler)` type assertion. -/
def cancelRequest (cancels : BaseRef → Bool) (t : Transport) (req : Nat) :
    Transport × CancelCall :=
  if cancels t.base then
    let modReq := lookupTable t.modReq req
    ({ t with modReq := eraseTable t.modReq req }, .invoked modReq)
  else
    (t, .notInvoked)

/-! ## Helper lemmas about header cloning -/

theorem cloneHeaderEntries_length (entries : List (String × Nat)) :
    ∀ slices : List (List String),
      slices.length ≤ (cloneHeaderEntries slices entries).2.length := by
  induction entries with
  | nil => intro slices; simp [cloneHeaderEntries]
  | cons e rest ih =>
      intro slices
      have h1 := ih (slices ++ [slices.getD e.2 []])
      simp only [cloneHeaderEntries, List.length_append, List.length_singleton] at h1 ⊢
      omega

theorem cloneHeaderEntries_getD (entries : List (String × Nat)) :
    ∀ (slices : List (List String)) (j : Nat), j < slices.length →
      (cloneHeaderEntries slices entries).2.getD j [] = slices.getD j [] := by
  induction entries with
  | nil => intro slices j hj; simp [cloneHeaderEntries]
  | cons e rest ih =>
      intro slices j hj
      have hj1 : j < (slices ++ [slices.getD e.2 []]).length := by
        simp only [List.length_append, List.length_singleton]; omega
      have h1 := ih (slices ++ [slices.getD e.2 []]) j hj1
      simp only [cloneHeaderEntries]
      rw [h1, List.getD_append _ _ _ _ hj]

theorem cloneHeaderEntries_fresh (entries : List (String × Nat)) :
    ∀ slices sp, sp ∈ ((cloneHeaderEntries slices entries).1).map Prod.snd →
      slices.length ≤ sp := by
  induction entries with
  | nil => intro slices sp h; simp [cloneHeaderEntries] at h
  | cons e rest ih =>
      intro slices sp h
      simp only [cloneHeaderEntries, List.map_cons, List.mem_cons] at h
      rcases h with h | h
      · omega
      · have h2 := ih (slices ++ [slices.getD e.2 []]) sp h
        simp only [List.length_append, List.length_singleton] at h2
        omega

theorem cloneHeaderEntries_keys (entries : List (String × Nat)) :
    ∀ slices, ((cloneHeaderEntries slices entries).1).map Prod.fst
      = entries.map Prod.fst := by
  induction entries with
  | nil => intro slices; simp [cloneHeaderEntries]
  | cons e rest ih =>
      intro slices
      simp only [cloneHeaderEntries, List.map_cons, List.cons.injEq]
      exact ⟨trivial, ih _⟩

theorem cloneHeaderEntries_view (entries : List (String × Nat)) :
    ∀ slices, (∀ sp ∈ entries.map Prod.snd, sp < slices.length) →
      ((cloneHeaderEntries slices entries).1).map
          (fun e => (e.1, (cloneHeaderEntries slices entries).2.getD e.2 []))
        = entries.map (fun e => (e.1, slices.getD e.2 [])) := by
  induction entries with
  | nil => intro slices hwf; simp [cloneHeaderEntries]
  | cons e rest ih =>
      intro slices hwf
      have hwfe : e.2 < slices.length := hwf e.2 (by simp)
      have hwfr : ∀ sp ∈ rest.map Prod.snd,
          sp < (slices ++ [slices.getD e.2 []]).length := by
        intro sp hsp
        have := hwf sp (by simp only [List.map_cons, List.mem_cons]; right; exact hsp)
        simp only [List.length_append, List.length_singleton]; omega
      simp only [cloneHeaderEntries, List.map_cons, List.cons.injEq]
      constructor
      · have hlt : slices.length < (slices ++ [slices.getD e.2 []]).length := by
          simp only [List.length_append, List.length_singleton]; omega
        rw [cloneHeaderEntries_getD rest _ _ hlt,
          List.getD_append_right _ _ _ _ (Nat.le_refl _)]
        simp
      · have h1 := ih (slices ++ [slices.getD e.2 []]) hwfr
        rw [h1]
        refine List.map_congr_left (fun a ha => ?_)
        have hlt : a.2 < slices.length :=
          hwf a.2 (by simp only [List.map_cons, List.mem_cons]; right
                      exact List.mem_map_of_mem Prod.snd ha)
        rw [List.getD_append _ _ _ _ hlt]

/-! ## Helper lemmas about cloneRequest -/

theorem cloneRequest_reqAt_old (h : Heap) (p i : Nat) (hi : i < h.reqs.length) :
    (cloneRequest h p).1.reqAt i = h.reqAt i := by
  simp only [cloneRequest, Heap.reqAt]
  exact List.getD_append _ _ _ _ hi

theorem cloneRequest_reqAt_mod (h : Heap) (p : Nat) :
    (cloneRequest h p).1.reqAt (cloneRequest h p).2
      = { h.reqAt p with
          header := some (cloneHeaderEntries h.slices
            ((h.reqAt p).header.getD [])).1 } := by
  simp only [cloneRequest, Heap.reqAt]
  rw [List.getD_append_right _ _ _ _ (Nat.le_refl _)]
  simp

theorem cloneRequest_sliceAt_old (h : Heap) (p : Nat) (j : Nat)
    (hj : j < h.slices.length) :
    (cloneRequest h p).1.sliceAt j = h.sliceAt j := by
  simp only [cloneRequest, Heap.sliceAt]
  exact cloneHeaderEntries_getD _ _ _ hj

theorem cloneRequest_slices_length (h : Heap) (p : Nat) :
    h.slices.length ≤ (cloneRequest h p).1.slices.length := by
  simp only [cloneRequest]
  exact cloneHeaderEntries_length _ _

theorem cloneRequest_reqs_length (h : Heap) (p : Nat) :
    (cloneRequest h p).1.reqs.length = h.reqs.length + 1 := by
  simp [cloneRequest]

theorem cloneRequest_modPtr (h : Heap) (p : Nat) :
    (cloneRequest h p).2 = h.reqs.length := rfl

theorem cloneRequest_footprint_fresh (h : Heap) (p : Nat) :
    ∀ sp ∈ footprint (cloneRequest h p).1 (cloneRequest h p).2,
      h.slices.length ≤ sp := by
  intro sp hsp
  rw [footprint, cloneRequest_reqAt_mod] at hsp
  exact cloneHeaderEntries_fresh _ _ _ hsp

/-- getD through a set at a different index. -/
theorem getD_set_ne {α : Type} (l : List α) (j i : Nat) (v d : α)
    (hne : i ≠ j) : (l.set j v).getD i d = l.getD i d := by
  rw [List.getD_eq_getElem?_getD, List.getD_eq_getElem?_getD,
    List.getElem?_set_ne (Ne.symm hne)]

/-! ## Helper lemmas about the onEOFReader lifecycle -/

/-- Charge of a reader state: callback runs so far plus the one still
pending if the callback is present. -/
def charge (r : onEOFReader) (count : Nat) : Nat :=
  count + (cond r.fnPresent 1 0)

theorem runFunc_charge (r : onEOFReader) (c : Nat) :
    charge (runFunc r c).1 (runFunc r c).2 = charge r c := by
  cases hfn : r.fnPresent <;> simp [runFunc, hfn, charge]

theorem read_charge (r : onEOFReader) (c : Nat) :
    charge (r.Read c).2.1 (r.Read c).2.2 = charge r c := by
  unfold onEOFReader.Read
  by_cases he : (streamRead r.rc).1.2 = some IOErr.eof
  · simp only [he, if_pos]
    exact runFunc_charge _ _
  · simp only [he, if_neg, ite_false]
    rfl

theorem close_charge (r : onEOFReader) (c : Nat) :
    charge (r.Close c).2.1 (r.Close c).2.2 = charge r c := by
  unfold onEOFReader.Close
  exact runFunc_charge _ _

theorem runOps_charge (ops : List BodyOp) :
    ∀ (r : onEOFReader) (c : Nat),
      charge (runOps r c ops).1 (runOps r c ops).2 = charge r c := by
  induction ops with
  | nil => intro r c; rfl
  | cons op rest ih =>
      intro r c
      cases op
      case read =>
        have h1 := ih (r.Read c).2.1 (r.Read c).2.2
        have h2 := read_charge r c
        simp only [runOps] at h1 ⊢
        rw [h1, h2]
      case close =>
        have h1 := ih (r.Close c).2.1 (r.Close c).2.2
        have h2 := close_charge r c
        simp only [runOps] at h1 ⊢
        rw [h1, h2]

theorem runFunc_fn_mono (r : onEOFReader) (c : Nat) :
    (runFunc r c).1.fnPresent = true → r.fnPresent = true := by
  cases hfn : r.fnPresent <;> simp [runFunc, hfn]

theorem read_fn_mono (r : onEOFReader) (c : Nat) :
    (r.Read c).2.1.fnPresent = true → r.fnPresent = true := by
  unfold onEOFReader.Read
  by_cases he : (streamRead r.rc).1.2 = some IOErr.eof
  · simp only [he, if_pos]
    intro h
    exact runFunc_fn_mono { r with rc := (streamRead r.rc).2 } c h
  · simp only [he, if_neg, ite_false]
    exact fun h => h

theorem close_fn_mono (r : onEOFReader) (c : Nat) :
    (r.Close c).2.1.fnPresent = true → r.fnPresent = true := by
  unfold onEOFReader.Close
  exact runFunc_fn_mono _ _

theorem runOps_fn_mono (ops : List BodyOp) :
    ∀ (r : onEOFReader) (c : Nat),
      (runOps r c ops).1.fnPresent = true → r.fnPresent = true := by
  induction ops with
  | nil => intro r c h; exact h
  | cons op rest ih =>
      intro r c h
      cases op
      case read =>
        simp only [runOps] at h
        exact read_fn_mono _ _ (ih _ _ h)
      case close =>
        simp only [runOps] at h
        exact close_fn_mono _ _ (ih _ _ h)

theorem runOps_close_clears (ops : List BodyOp) :
    ∀ (r : onEOFReader) (c : Nat), BodyOp.close ∈ ops →
      (runOps r c ops).1.fnPresent = false := by
  induction ops with
  | nil => intro r c h; simp at h
  | cons op rest ih =>
      intro r c hmem
      cases op
      case read =>
        have hrest : BodyOp.close ∈ rest := by
          rcases List.mem_cons.mp hmem with h | h
          · exact absurd h (by simp)
          · exact h
        simp only [runOps]
        exact ih _ _ hrest
      case close =>
        simp only [runOps]
        by_cases hrest : BodyOp.close ∈ rest
        · exact ih _ _ hrest
        · have hcl : ((onEOFReader.Close r c).2.1).fnPresent = false := by
            unfold onEOFReader.Close runFunc
            cases hfn : r.fnPresent <;> simp [hfn]
          cases hfin : (runOps (onEOFReader.Close r c).2.1
              (onEOFReader.Close r c).2.2 rest).1.fnPresent
          · rfl
          · exact absurd (runOps_fn_mono rest _ _ hfin) (by rw [hcl]; simp)

/-! ## Claims about the onEOFReader -/

/-- C5: starting from a freshly wrapped body, any sequence of Read and
Close calls runs the cleanup callback at most once; it has run exactly once
precisely when some trigger (EOF on Read, or Close) occurred, which cleared
the callback; any Close in the sequence guarantees exactly one run. -/
theorem onEOFReader_callback_exactly_once (s : Stream) (ops : List BodyOp) :
    (runOps { rc := s, fnPresent := true } 0 ops).2 ≤ 1
    ∧ ((runOps { rc := s, fnPresent := true } 0 ops).2 = 1
        ↔ (runOps { rc := s, fnPresent := true } 0 ops).1.fnPresent = false)
    ∧ (BodyOp.close ∈ ops →
        (runOps { rc := s, fnPresent := true } 0 ops).2 = 1) := by
  have hch := runOps_charge ops { rc := s, fnPresent := true } 0
  simp only [charge] at hch
  refine ⟨?_, ⟨?_, ?_⟩, ?_⟩
  · cases hfn : (runOps { rc := s, fnPresent := true } 0 ops).1.fnPresent <;>
      rw [hfn] at hch <;> simp at hch <;> omega
  · intro h1
    cases hfn : (runOps { rc := s, fnPresent := true } 0 ops).1.fnPresent
    · rfl
    · rw [hfn, h1] at hch; simp at hch
  · intro hfn
    rw [hfn] at hch; simpa using hch
  · intro hmem
    have hfn := runOps_close_clears ops { rc := s, fnPresent := true } 0 hmem
    rw [hfn] at hch; simpa using hch

/-- A concrete wrapped stream for witnesses: one data-carrying Read, then
end of stream; Close succeeds. -/
def sampleStream : Stream :=
  { reads := [(3, none)], closeResult := none }

/-- A concrete wrapped stream whose first Read fails with a non-EOF
error. -/
def errStream : Stream :=
  { reads := [(5, some (IOErr.other "reset"))], closeResult := none }

/-- Witness for C5 at a concrete stream and consumer schedule: one Read
delivering data, then Close; the callback runs exactly once. -/
theorem onEOFReader_callback_exactly_once_witness :
    BodyOp.close ∈ [BodyOp.read, BodyOp.close]
    ∧ (runOps { rc := sampleStream, fnPresent := true } 0
        [BodyOp.read, BodyOp.close]).2 = 1 :=
  ⟨by decide,
    (onEOFReader_callback_exactly_once sampleStream
      [BodyOp.read, BodyOp.close]).2.2 (by decide)⟩

/-- C6: Close always delegates to the wrapped stream's Close and returns
exactly its result, whatever the callback state is (in particular both
before and after the callback has fired). -/
theorem onEOFReader_Close_returns_delegate (r : onEOFReader) (c : Nat) :
    (r.Close c).1 = r.rc.closeResult := rfl

/-- C9: if the next Read of the wrapped stream yields an error other than
io.EOF, Read returns that count and error unchanged and does not trigger
the callback (callback presence and run count are untouched). -/
theorem onEOFReader_Read_non_eof_error (r : onEOFReader) (c n : Nat)
    (msg : String)
    (hhead : r.rc.reads.head? = some (n, some (IOErr.other msg))) :
    (r.Read c).1 = (n, some (IOErr.other msg))
    ∧ (r.Read c).2.1.fnPresent = r.fnPresent
    ∧ (r.Read c).2.2 = c := by
  rcases hq : r.rc.reads with _ | ⟨hd, tl⟩
  · rw [hq] at hhead; simp at hhead
  · rw [hq] at hhead
    simp only [List.head?_cons, Option.some.injEq] at hhead
    unfold onEOFReader.Read streamRead
    rw [hq, hhead]
    simp

/-- Witness for C9: a stream whose first Read fails with a non-EOF error;
the error is passed through and the callback is untouched. -/
theorem onEOFReader_Read_non_eof_error_witness :
    (onEOFReader.Read { rc := errStream, fnPresent := true } 0).1
      = (5, some (IOErr.other "reset"))
    ∧ (onEOFReader.Read
        { rc := errStream, fnPresent := true } 0).2.1.fnPresent = true
    ∧ (onEOFReader.Read { rc := errStream, fnPresent := true } 0).2.2 = 0 :=
  onEOFReader_Read_non_eof_error
    { rc := errStream, fnPresent := true } 0 5 "reset" (by decide)

/-! ## Claims about construction and cloning -/

/-- C8: NewTransport substitutes http.DefaultTransport for a nil Base,
keeps a non-nil Base as given, and starts with an empty tracking table. -/
theorem newTransport_defaults (b : BaseRef) (v : Option Nat) :
    (newTransport none v).base = BaseRef.defaultTransport
    ∧ (newTransport (some b) v).base = b
    ∧ (newTransport none v).modReq = []
    ∧ (newTransport (some b) v).modReq = [] :=
  ⟨rfl, rfl, rfl, rfl⟩

/-- C10: cloning a request whose header map is nil yields a clone with a
non-nil empty header map, safe for visitor writes. -/
theorem cloneRequest_nil_header (h : Heap) (p : Nat)
    (hnil : (h.reqAt p).header = none) :
    ((cloneRequest h p).1.reqAt (cloneRequest h p).2).header = some []
    ∧ ((cloneRequest h p).1.reqAt (cloneRequest h p).2).header ≠ none := by
  rw [cloneRequest_reqAt_mod, hnil]
  simp [cloneHeaderEntries]

/-- A concrete heap for witnesses: request 0 has a populated header map,
request 1 a nil one. -/
def sampleHeap : Heap :=
  { reqs := [{ header := some [("A", 0), ("B", 1)], method := "GET",
               url := 7, body := 9 },
             { header := none, method := "PUT", url := 3, body := 4 }]
    slices := [["x", "y"], ["z"]] }

/-- Witness for C10: cloning the nil-header request of the sample heap. -/
theorem cloneRequest_nil_header_witness :
    (sampleHeap.reqAt 1).header = none
    ∧ (((cloneRequest sampleHeap 1).1.reqAt
          (cloneRequest sampleHeap 1).2).header = some []
        ∧ ((cloneRequest sampleHeap 1).1.reqAt
            (cloneRequest sampleHeap 1).2).header ≠ none) :=
  ⟨by decide, cloneRequest_nil_header sampleHeap 1 (by decide)⟩

/-! ## Observation lemmas -/

/-- Two heaps agreeing on a request object and on the slices its header
reaches show the same header collection for it. -/
theorem headerView_congr (ha hb : Heap) (p : Nat)
    (hreq : hb.reqAt p = ha.reqAt p)
    (hsl : ∀ sp ∈ footprint ha p, hb.sliceAt sp = ha.sliceAt sp) :
    headerView hb p = headerView ha p := by
  unfold headerView
  rw [hreq]
  rcases hh : (ha.reqAt p).header with _ | entries
  · rfl
  · have hmap : List.map (fun e => (e.1, hb.sliceAt e.2)) entries
        = List.map (fun e => (e.1, ha.sliceAt e.2)) entries := by
      refine List.map_congr_left (fun e he => ?_)
      have hm : e.2 ∈ footprint ha p := by
        unfold footprint
        rw [hh]
        exact List.mem_map_of_mem Prod.snd he
      rw [hsl _ hm]
    simp only [Option.map_some', hmap]

/-- Looking up a key right after deleting it finds nothing. -/
theorem lookupTable_erase_self (tbl : Table) (k : Nat) :
    lookupTable (eraseTable tbl k) k = none := by
  induction tbl with
  | nil => rfl
  | cons e rest ih =>
      unfold eraseTable at ih ⊢
      rw [List.filter_cons]
      by_cases he : e.1 = k
      · rw [if_neg (by simp [he])]
        exact ih
      · rw [if_pos (by simp [he])]
        unfold lookupTable at ih ⊢
        rw [List.find?_cons_of_neg _ (by simp [he])]
        exact ih

/-- Deleting an absent key leaves the table unchanged. -/
theorem eraseTable_absent (tbl : Table) (k : Nat)
    (hab : lookupTable tbl k = none) : eraseTable tbl k = tbl := by
  induction tbl with
  | nil => rfl
  | cons e rest ih =>
      unfold lookupTable at hab ih
      by_cases he : e.1 = k
      · rw [List.find?_cons_of_pos _ (by simp [he])] at hab
        simp at hab
      · rw [List.find?_cons_of_neg _ (by simp [he])] at hab
        unfold eraseTable at ih ⊢
        rw [List.filter_cons, if_pos (by simp [he]), ih hab]

/-! ## C2: cloneRequest is a deep copy at the header level -/

/-- C2: the clone shares the original's non-header fields, shows the same
header keys and value sequences, its header map holds only freshly
allocated value slices disjoint from the original's, the original object
and all pre-existing slices are untouched, and overwriting any slice
reachable from the clone's header leaves the original's header collection
unchanged. -/
theorem cloneRequest_deep_copy (h : Heap) (p : Nat) (hwf : reqWF h p) :
    ((cloneRequest h p).1.reqAt (cloneRequest h p).2).method = (h.reqAt p).method
    ∧ ((cloneRequest h p).1.reqAt (cloneRequest h p).2).url = (h.reqAt p).url
    ∧ ((cloneRequest h p).1.reqAt (cloneRequest h p).2).body = (h.reqAt p).body
    ∧ headerEntriesView (cloneRequest h p).1 (cloneRequest h p).2
        = headerEntriesView h p
    ∧ (∀ sp ∈ footprint (cloneRequest h p).1 (cloneRequest h p).2,
        sp ∉ footprint (cloneRequest h p).1 p)
    ∧ (cloneRequest h p).1.reqAt p = h.reqAt p
    ∧ (∀ j, j < h.slices.length →
        (cloneRequest h p).1.sliceAt j = h.sliceAt j)
    ∧ (∀ j ∈ footprint (cloneRequest h p).1 (cloneRequest h p).2,
        ∀ v, headerView (writeSlice (cloneRequest h p).1 j v) p
          = headerView (cloneRequest h p).1 p) := by
  have hpres : (cloneRequest h p).1.reqAt p = h.reqAt p :=
    cloneRequest_reqAt_old h p p hwf.1
  have hfp : footprint (cloneRequest h p).1 p = footprint h p := by
    unfold footprint; rw [hpres]
  refine ⟨?_, ?_, ?_, ?_, ?_, hpres, ?_, ?_⟩
  · rw [cloneRequest_reqAt_mod]
  · rw [cloneRequest_reqAt_mod]
  · rw [cloneRequest_reqAt_mod]
  · unfold headerEntriesView
    rw [cloneRequest_reqAt_mod]
    have hview := cloneHeaderEntries_view ((h.reqAt p).header.getD [])
      h.slices hwf.2
    simpa [Heap.sliceAt, cloneRequest] using hview
  · intro sp hsp
    have hge := cloneRequest_footprint_fresh h p sp hsp
    rw [hfp]
    intro habs
    exact absurd (hwf.2 sp habs) (by omega)
  · exact fun j hj => cloneRequest_sliceAt_old h p j hj
  · intro j hj v
    have hge := cloneRequest_footprint_fresh h p j hj
    refine headerView_congr (cloneRequest h p).1
      (writeSlice (cloneRequest h p).1 j v) p rfl ?_
    intro sp hsp
    have hlt : sp < h.slices.length := hwf.2 sp (hfp ▸ hsp)
    have hne : sp ≠ j := by omega
    unfold writeSlice Heap.sliceAt
    exact getD_set_ne _ _ _ _ _ hne

/-- Witness for C2 on the sample heap's populated request. -/
theorem cloneRequest_deep_copy_witness :
    reqWF sampleHeap 0
    ∧ headerEntriesView (cloneRequest sampleHeap 0).1
        (cloneRequest sampleHeap 0).2 = headerEntriesView sampleHeap 0
    ∧ (cloneRequest sampleHeap 0).1.reqAt 0 = sampleHeap.reqAt 0 :=
  ⟨by decide,
    (cloneRequest_deep_copy sampleHeap 0 (by decide)).2.2.2.1,
    (cloneRequest_deep_copy sampleHeap 0 (by decide)).2.2.2.2.2.1⟩

/-! ## C1: RoundTrip never mutates the original request's headers -/

/-- A header-mutating visitor: it may rewrite the request object it is
handed and may write through the value slices reachable from that request's
header map (and allocate fresh objects), but it leaves every other request
object and every other existing slice unchanged. -/
def VisitorFrame (v : Heap → Nat → Heap × Option String) : Prop :=
  ∀ h p,
    (∀ i, i < h.reqs.length → i ≠ p → (v h p).1.reqAt i = h.reqAt i)
    ∧ (∀ j, j < h.slices.length → j ∉ footprint h p →
        (v h p).1.sliceAt j = h.sliceAt j)

/-- Every branch of RoundTrip returns the heap as the visitor stage left
it: neither registration nor the base call writes request objects. -/
theorem roundTrip_heap (t : Transport) (vsem : VisitorSem) (bsem : BaseSem)
    (h : Heap) (req : Nat) :
    (roundTrip t vsem bsem h req).heap
      = (visitStage t vsem (cloneRequest h req).1 (cloneRequest h req).2).1 := by
  unfold roundTrip
  rcases hv : (visitStage t vsem (cloneRequest h req).1
      (cloneRequest h req).2).2 with _ | e
  · simp only [hv]
    rcases hb : bsem t.base (reqView (visitStage t vsem (cloneRequest h req).1
        (cloneRequest h req).2).1 (cloneRequest h req).2) with e | res
    · simp [hb]
    · simp [hb]
  · simp [hv]

/-- C1: for every well-formed original request and every visitor that only
mutates the working request and its headers, the original's header
collection (keys and dereferenced value sequences) is the same after
RoundTrip as before, whether RoundTrip returns a response or an error. -/
theorem roundTrip_preserves_original_headers (t : Transport)
    (vsem : VisitorSem) (bsem : BaseSem) (h : Heap) (req : Nat)
    (hwf : reqWF h req)
    (hframe : ∀ vid, t.requestVisitor = some vid → VisitorFrame (vsem vid)) :
    headerView (roundTrip t vsem bsem h req).heap req = headerView h req := by
  rw [roundTrip_heap]
  have hclone_req : (cloneRequest h req).1.reqAt req = h.reqAt req :=
    cloneRequest_reqAt_old h req req hwf.1
  have hclone_sl : ∀ sp ∈ footprint h req,
      (cloneRequest h req).1.sliceAt sp = h.sliceAt sp :=
    fun sp hsp => cloneRequest_sliceAt_old h req sp (hwf.2 sp hsp)
  have hstep1 : headerView (cloneRequest h req).1 req = headerView h req :=
    headerView_congr h (cloneRequest h req).1 req hclone_req hclone_sl
  rcases hv : t.requestVisitor with _ | vid
  · unfold visitStage
    rw [hv]
    exact hstep1
  · unfold visitStage
    rw [hv]
    have hfp1 : footprint (cloneRequest h req).1 req = footprint h req := by
      unfold footprint; rw [hclone_req]
    obtain ⟨hfr, hfs⟩ := hframe vid hv (cloneRequest h req).1 (cloneRequest h req).2
    have hp1 : req < h.reqs.length := hwf.1
    have hmodne : req ≠ (cloneRequest h req).2 := by
      rw [cloneRequest_modPtr]; omega
    have hreq2 : (vsem vid (cloneRequest h req).1 (cloneRequest h req).2).1.reqAt req
        = (cloneRequest h req).1.reqAt req := by
      refine hfr req ?_ hmodne
      rw [cloneRequest_reqs_length]; omega
    have hsl2 : ∀ sp ∈ footprint (cloneRequest h req).1 req,
        (vsem vid (cloneRequest h req).1 (cloneRequest h req).2).1.sliceAt sp
          = (cloneRequest h req).1.sliceAt sp := by
      intro sp hsp
      rw [hfp1] at hsp
      have hlt : sp < h.slices.length := hwf.2 sp hsp
      refine hfs sp (lt_of_lt_of_le hlt (cloneRequest_slices_length h req)) ?_
      intro habs
      have := cloneRequest_footprint_fresh h req sp habs
      omega
    have hstep2 := headerView_congr (cloneRequest h req).1
      (vsem vid (cloneRequest h req).1 (cloneRequest h req).2).1 req hreq2 hsl2
    rw [hstep2, hstep1]

/-- A concrete transport for witnesses: default Base, visitor 0 configured,
empty tracking table. -/
def sampleTransport : Transport :=
  { base := BaseRef.defaultTransport, requestVisitor := some 0, modReq := [] }

/-- The identity visitor semantics: every visitor mutates nothing and
succeeds. -/
def idVisitorSem : VisitorSem := fun _ hp _ => (hp, none)

/-- A base transport that always fails. -/
def failBaseSem : BaseSem := fun _ _ => Except.error "down"

/-- Witness for C1: a concrete transport with a configured (identity)
visitor, a failing base, and the sample heap. -/
theorem roundTrip_preserves_original_headers_witness :
    reqWF sampleHeap 0
    ∧ headerView (roundTrip sampleTransport idVisitorSem failBaseSem
        sampleHeap 0).heap 0 = headerView sampleHeap 0 :=
  ⟨by decide,
    roundTrip_preserves_original_headers sampleTransport idVisitorSem
      failBaseSem sampleHeap 0 (by decide)
      (fun _ _ => fun _ _ => ⟨fun _ _ _ => rfl, fun _ _ _ => rfl⟩)⟩

/-! ## C3 and C4: error short-circuits -/

/-- C3: if the visitor fails on the clone, RoundTrip returns exactly that
error, the base transport is never invoked, and the tracking table is left
exactly as it was — in particular no entry for the original is present
afterwards if none was before. -/
theorem roundTrip_visitor_error (t : Transport) (vsem : VisitorSem)
    (bsem : BaseSem) (h : Heap) (req : Nat) (e : String)
    (hfail : (visitStage t vsem (cloneRequest h req).1
        (cloneRequest h req).2).2 = some e) :
    (roundTrip t vsem bsem h req).result = Except.error e
    ∧ (roundTrip t vsem bsem h req).baseCalls = []
    ∧ (roundTrip t vsem bsem h req).modReq = t.modReq
    ∧ (lookupTable t.modReq req = none →
        lookupTable (roundTrip t vsem bsem h req).modReq req = none) := by
  unfold roundTrip
  simp [hfail]

/-- A visitor semantics that always fails without mutating anything. -/
def failVisitorSem : VisitorSem := fun _ hp _ => (hp, some "rejected")

/-- Witness for C3: a transport with a failing visitor over the sample
heap. -/
theorem roundTrip_visitor_error_witness :
    (roundTrip sampleTransport failVisitorSem failBaseSem sampleHeap 0).result
      = Except.error "rejected"
    ∧ (roundTrip sampleTransport failVisitorSem failBaseSem
        sampleHeap 0).baseCalls = []
    ∧ (roundTrip sampleTransport failVisitorSem failBaseSem
        sampleHeap 0).modReq = sampleTransport.modReq :=
  ⟨(roundTrip_visitor_error sampleTransport failVisitorSem failBaseSem
      sampleHeap 0 "rejected" rfl).1,
   (roundTrip_visitor_error sampleTransport failVisitorSem failBaseSem
      sampleHeap 0 "rejected" rfl).2.1,
   (roundTrip_visitor_error sampleTransport failVisitorSem failBaseSem
      sampleHeap 0 "rejected" rfl).2.2.1⟩

/-- C4: if the visitor stage succeeds and the base transport fails on the
working request, RoundTrip returns exactly that error and the tracking
table holds no entry for the original request afterwards. -/
theorem roundTrip_base_error (t : Transport) (vsem : VisitorSem)
    (bsem : BaseSem) (h : Heap) (req : Nat) (e : String)
    (hok : (visitStage t vsem (cloneRequest h req).1
        (cloneRequest h req).2).2 = none)
    (hbase : bsem t.base (reqView (visitStage t vsem (cloneRequest h req).1
        (cloneRequest h req).2).1 (cloneRequest h req).2)
      = Except.error e) :
    (roundTrip t vsem bsem h req).result = Except.error e
    ∧ lookupTable (roundTrip t vsem bsem h req).modReq req = none := by
  unfold roundTrip
  simp only [hok, hbase]
  exact ⟨trivial, lookupTable_erase_self _ _⟩

/-- Witness for C4: an identity visitor and an always-failing base over the
sample heap. -/
theorem roundTrip_base_error_witness :
    (roundTrip sampleTransport idVisitorSem failBaseSem sampleHeap 0).result
      = Except.error "down"
    ∧ lookupTable (roundTrip sampleTransport idVisitorSem failBaseSem
        sampleHeap 0).modReq 0 = none :=
  roundTrip_base_error sampleTransport idVisitorSem failBaseSem sampleHeap 0
    "down" rfl rfl

/-! ## C7: CancelRequest -/

/-- C7: when the Base lacks cancellation capability CancelRequest does
nothing at all; when it has the capability but no mapping is live, the
table is unchanged and the Base canceler receives nil — no request is acted
on; when a live mapping exists, the mapping is removed and the Base
canceler receives the working request, not the original. -/
theorem cancelRequest_spec (cancels : BaseRef → Bool) (t : Transport)
    (req m : Nat) :
    (cancels t.base = false →
      cancelRequest cancels t req = (t, CancelCall.notInvoked))
    ∧ (cancels t.base = true → lookupTable t.modReq req = none →
        (cancelRequest cancels t req).1 = t
        ∧ (cancelRequest cancels t req).2 = CancelCall.invoked none
        ∧ ∀ r, (cancelRequest cancels t req).2 ≠ CancelCall.invoked (some r))
    ∧ (cancels t.base = true → lookupTable t.modReq req = some m →
        (cancelRequest cancels t req).1.modReq = eraseTable t.modReq req
        ∧ lookupTable (cancelRequest cancels t req).1.modReq req = none
        ∧ (cancelRequest cancels t req).2 = CancelCall.invoked (some m)) := by
  refine ⟨?_, ?_, ?_⟩
  · intro hc
    unfold cancelRequest
    rw [hc]
    rfl
  · intro hc hab
    unfold cancelRequest
    rw [hc]
    simp only [if_pos]
    refine ⟨?_, ?_, ?_⟩
    · rw [eraseTable_absent t.modReq req hab]
    · rw [hab]
    · intro r
      rw [hab]
      simp
  · intro hc hsome
    unfold cancelRequest
    rw [hc]
    simp only [if_pos]
    exact ⟨trivial, lookupTable_erase_self _ _, by rw [hsome]⟩

/-- A concrete transport with one live tracking entry for witnesses. -/
def sampleTransport2 : Transport :=
  { base := BaseRef.custom 5, requestVisitor := none, modReq := [(1, 2)] }

/-- Witness for C7 exercising all three branches at concrete inputs. -/
theorem cancelRequest_spec_witness :
    cancelRequest (fun _ => false) sampleTransport2 1
      = (sampleTransport2, CancelCall.notInvoked)
    ∧ ((cancelRequest (fun _ => true) sampleTransport2 9).1 = sampleTransport2
        ∧ (cancelRequest (fun _ => true) sampleTransport2 9).2
          = CancelCall.invoked none
        ∧ (cancelRequest (fun _ => true) sampleTransport2 9).2
          ≠ CancelCall.invoked (some 2))
    ∧ ((cancelRequest (fun _ => true) sampleTransport2 1).1.modReq
          = eraseTable sampleTransport2.modReq 1
        ∧ lookupTable
            (cancelRequest (fun _ => true) sampleTransport2 1).1.modReq 1
          = none
        ∧ (cancelRequest (fun _ => true) sampleTransport2 1).2
          = CancelCall.invoked (some 2)) :=
  ⟨(cancelRequest_spec (fun _ => false) sampleTransport2 1 0).1 rfl,
   ⟨((cancelRequest_spec (fun _ => true) sampleTransport2 9 0).2.1 rfl
      (by decide)).1,
    ((cancelRequest_spec (fun _ => true) sampleTransport2 9 0).2.1 rfl
      (by decide)).2.1,
    ((cancelRequest_spec (fun _ => true) sampleTransport2 9 0).2.1 rfl
      (by decide)).2.2 2⟩,
   (cancelRequest_spec (fun _ => true) sampleTransport2 1 2).2.2 rfl
    (by decide)⟩

end Requestmod
